import Mathlib

set_option maxRecDepth 40000

/-!
Badge compositor: shallow embedding of `src/badgecreator.py`

This file embeds the layout arithmetic of `create_badge` from
`badgecreator.py` (the badge compositor of
heroku-examples/heroku-agentforce-tutorial-python) and settles the
claims of the specification about it.

Modelling conventions:
* Pillow raster operations (drawing, rotation, PNG encoding) are not
  arithmetic; what the claims speak about are the integer coordinates and
  dimensions the source computes before handing them to Pillow.  All of
  those computations are transcribed here line by line into `badgeLayout`.
* `temp_draw.textbbox((0, 0), text, font)` is an external font-metric
  oracle; it is modelled as a function parameter
  `measure : FontChoice → String → BBox` returning the 4-tuple
  `(left, top, right, bottom)` that Pillow returns for anchor `(0, 0)`.
* Python `//` on integers is floor division, embedded as `Int.fdiv`.
* `int(math.sqrt(x))` for a nonnegative integer `x` is the floor of the
  exact square root (Python floats are correctly rounded, and the values
  here are far below 2 ^ 52), embedded as `isqrt` below, which is proved
  equal to `Nat.sqrt`.
* `logo_height = int(logo_width * aspect_ratio)` with the ratio
  `h / w` is evaluated in binary64 floating point; it is embedded
  bit-exactly as `pyLogoHeight` below: correctly rounded (nearest, ties
  to even, 53-bit mantissa) division and multiplication followed by
  truncation.  Note this is NOT always `(200 * h) / w` in exact
  arithmetic: for `w = 5, h = 23` the float product is
  `919.9999999999999...`, so the source obtains 919 while the exact
  floor is 920.
* `Image.open` raising `FileNotFoundError` is modelled by the logo asset
  argument being `none`; `ImageFont.truetype` raising `IOError` is
  modelled by the custom-font argument being `none`.
-/

/-- Largest `k ≤ q` with `k * k ≤ n` (and `0` when there is none):
helper for the kernel-computable floor square root. -/
def isqrtFrom (n : Nat) : Nat → Nat
  | 0 => 0
  | q + 1 => if (q + 1) * (q + 1) ≤ n then q + 1 else isqrtFrom n q

/-- Floor of the exact square root of `n`: the embedding of the Python
expression `int(math.sqrt(n))` for a nonnegative integer `n`
(`src/badgecreator.py`, line 136).  Structurally recursive so the kernel
can evaluate it on concrete inputs; proved equal to `Nat.sqrt` below. -/
def isqrt (n : Nat) : Nat := isqrtFrom n n

theorem isqrtFrom_sq_le (n : Nat) : ∀ q, isqrtFrom n q * isqrtFrom n q ≤ n
  | 0 => by simp [isqrtFrom]
  | q + 1 => by
    unfold isqrtFrom
    split
    · assumption
    · exact isqrtFrom_sq_le n q

theorem le_isqrtFrom (n : Nat) : ∀ q k, k ≤ q → k * k ≤ n → k ≤ isqrtFrom n q
  | 0, k, hk, _ => by simpa [isqrtFrom] using hk
  | q + 1, k, hk, hkn => by
    unfold isqrtFrom
    split
    · exact hk
    · rename_i hfail
      have hk' : k ≤ q := by
        have : k ≠ q + 1 := fun he => hfail (he ▸ hkn)
        omega
      exact le_isqrtFrom n q k hk' hkn

theorem isqrt_sq_le (n : Nat) : isqrt n * isqrt n ≤ n := isqrtFrom_sq_le n n

theorem lt_isqrt_succ_sq (n : Nat) : n < (isqrt n + 1) * (isqrt n + 1) := by
  by_contra hcon
  push_neg at hcon
  have hle : isqrt n + 1 ≤ (isqrt n + 1) * (isqrt n + 1) :=
    Nat.le_mul_of_pos_right _ (Nat.succ_pos _)
  have hn : isqrt n + 1 ≤ n := le_trans hle hcon
  have h2 := le_isqrtFrom n n (isqrt n + 1) hn hcon
  rw [show isqrtFrom n n = isqrt n from rfl] at h2
  omega

theorem isqrt_eq_sqrt (n : Nat) : isqrt n = Nat.sqrt n :=
  Nat.eq_sqrt.mpr ⟨isqrt_sq_le n, lt_isqrt_succ_sq n⟩

/-- Fuel-driven floor of the base-2 logarithm (`log2From n n` is the
index of the highest set bit of `n`, or 0 for `n ≤ 1`).  Structurally
recursive so the kernel can evaluate it on concrete inputs. -/
def log2From : Nat → Nat → Nat
  | 0, _ => 0
  | fuel + 1, n => if 2 ≤ n then log2From fuel (n / 2) + 1 else 0

/-- Floor of the base-2 logarithm of a positive natural. -/
def log2n (n : Nat) : Nat := log2From n n

theorem log2From_spec : ∀ fuel n : Nat, 0 < n → n ≤ fuel →
    2 ^ log2From fuel n ≤ n ∧ n < 2 ^ (log2From fuel n + 1)
  | 0, _, hn, hfuel => by omega
  | fuel + 1, n, hn, hfuel => by
    simp only [log2From]
    split
    · rename_i h2
      have hrec := log2From_spec fuel (n / 2) (by omega) (by omega)
      rcases hrec with ⟨hlo, hhi⟩
      simp only [pow_succ] at hhi ⊢
      omega
    · rename_i h2
      have hone : n = 1 := by omega
      subst hone
      norm_num

theorem log2n_spec (n : Nat) (hn : 0 < n) :
    2 ^ log2n n ≤ n ∧ n < 2 ^ (log2n n + 1) :=
  log2From_spec n n hn le_rfl

/-- Round `num / den` to the nearest integer, ties to even: the rounding
mode of the IEEE-754 binary64 operations the source relies on. -/
def roundNE (num den : Nat) : Nat :=
  if 2 * (num % den) < den then num / den
  else if den < 2 * (num % den) then num / den + 1
  else if num / den % 2 = 0 then num / den else num / den + 1

theorem roundNE_err_int (num den : Nat) (hden : 0 < den) :
    2 * ((roundNE num den : Int) * den - num) ≤ den
      ∧ 2 * ((num : Int) - (roundNE num den : Int) * den) ≤ den := by
  have hdm := Nat.div_add_mod num den
  have hmod := Nat.mod_lt num hden
  have hdmZ : (den : Int) * ((num / den : Nat) : Int) + ((num % den : Nat) : Int)
      = (num : Int) := by exact_mod_cast hdm
  simp only [roundNE]
  split_ifs with h1 h2 h3 <;>
    (constructor <;> (rw [← hdmZ]; push_cast; ring_nf; omega))

theorem roundNE_err (num den : Nat) (hden : 0 < den) :
    |(roundNE num den : ℚ) - (num : ℚ) / den| ≤ 1 / 2 := by
  have h := roundNE_err_int num den hden
  have hdenQ : (0 : ℚ) < den := by exact_mod_cast hden
  have h1Q : 2 * ((roundNE num den : ℚ) * den - num) ≤ den := by exact_mod_cast h.1
  have h2Q : 2 * ((num : ℚ) - (roundNE num den : ℚ) * den) ≤ den := by exact_mod_cast h.2
  rw [abs_sub_le_iff]
  constructor
  · rw [← mul_le_mul_right hdenQ]
    have hexp : ((roundNE num den : ℚ) - num / den) * den
        = (roundNE num den : ℚ) * den - num := by
      field_simp
    rw [hexp]
    linarith
  · rw [← mul_le_mul_right hdenQ]
    have hexp : ((num : ℚ) / den - (roundNE num den : ℚ)) * den
        = (num : ℚ) - (roundNE num den : ℚ) * den := by
      field_simp
      ring
    rw [hexp]
    linarith

/-- Decide whether `2 ^ k ≤ a / b` for naturals `a`, `b` and an integer
exponent `k`, by cross-multiplying. -/
def pow2LeRat (k : Int) (a b : Nat) : Bool :=
  match k with
  | Int.ofNat n => decide (b * 2 ^ n ≤ a)
  | Int.negSucc n => decide (b ≤ a * 2 ^ (n + 1))

theorem pow2LeRat_iff (k : Int) (a b : Nat) (hb : 0 < b) :
    pow2LeRat k a b = true ↔ (2 : ℚ) ^ k ≤ (a : ℚ) / b := by
  have hbQ : (0 : ℚ) < b := by exact_mod_cast hb
  cases k with
  | ofNat n =>
    simp only [pow2LeRat, decide_eq_true_eq, Int.ofNat_eq_natCast, zpow_natCast]
    rw [le_div_iff₀ hbQ]
    rw [show (2 : ℚ) ^ n * b = ((b * 2 ^ n : ℕ) : ℚ) by push_cast; ring]
    exact Nat.cast_le.symm
  | negSucc n =>
    simp only [pow2LeRat, decide_eq_true_eq, zpow_negSucc]
    rw [inv_eq_one_div, div_le_div_iff₀ (by positivity) hbQ, one_mul]
    rw [show (a : ℚ) * 2 ^ (n + 1) = ((a * 2 ^ (n + 1) : ℕ) : ℚ) by push_cast; ring]
    exact Nat.cast_le.symm

/-- The floor of the base-2 logarithm of the positive rational `a / b`:
the unique `k` with `2 ^ k ≤ a / b < 2 ^ (k + 1)`. -/
def ratLog2 (a b : Nat) : Int :=
  if pow2LeRat ((log2n a : Int) - (log2n b : Int)) a b = true
    then (log2n a : Int) - (log2n b : Int)
    else (log2n a : Int) - (log2n b : Int) - 1

theorem ratLog2_spec (a b : Nat) (ha : 0 < a) (hb : 0 < b) :
    (2 : ℚ) ^ ratLog2 a b ≤ (a : ℚ) / b
      ∧ (a : ℚ) / b < (2 : ℚ) ^ (ratLog2 a b + 1) := by
  have hbQ : (0 : ℚ) < b := by exact_mod_cast hb
  have h2 : (2 : ℚ) ≠ 0 := by norm_num
  obtain ⟨ha1, ha2⟩ := log2n_spec a ha
  obtain ⟨hb1, hb2⟩ := log2n_spec b hb
  have ha1Q : (2 : ℚ) ^ (log2n a : ℤ) ≤ a := by
    rw [zpow_natCast]; exact_mod_cast ha1
  have ha2Q : (a : ℚ) < 2 ^ ((log2n a : ℤ) + 1) := by
    rw [show ((log2n a : ℤ) + 1) = ((log2n a + 1 : ℕ) : ℤ) by push_cast; ring,
      zpow_natCast]
    exact_mod_cast ha2
  have hb1Q : (2 : ℚ) ^ (log2n b : ℤ) ≤ b := by
    rw [zpow_natCast]; exact_mod_cast hb1
  have hb2Q : (b : ℚ) < 2 ^ ((log2n b : ℤ) + 1) := by
    rw [show ((log2n b : ℤ) + 1) = ((log2n b + 1 : ℕ) : ℤ) by push_cast; ring,
      zpow_natCast]
    exact_mod_cast hb2
  set c : Int := (log2n a : Int) - (log2n b : Int) with hc
  have hup : (a : ℚ) / b < 2 ^ (c + 1) := by
    rw [div_lt_iff₀ hbQ]
    calc (a : ℚ) < 2 ^ ((log2n a : ℤ) + 1) := ha2Q
      _ = 2 ^ (c + 1) * 2 ^ (log2n b : ℤ) := by
          rw [← zpow_add₀ h2]; congr 1; omega
      _ ≤ 2 ^ (c + 1) * b := by
          have hpos : (0 : ℚ) < 2 ^ (c + 1) := by positivity
          nlinarith [hb1Q, hpos]
  have hlo : (2 : ℚ) ^ (c - 1) < (a : ℚ) / b := by
    rw [lt_div_iff₀ hbQ]
    calc (2 : ℚ) ^ (c - 1) * b < 2 ^ (c - 1) * 2 ^ ((log2n b : ℤ) + 1) := by
          have hpos : (0 : ℚ) < 2 ^ (c - 1) := by positivity
          nlinarith [hb2Q, hpos]
      _ = 2 ^ (log2n a : ℤ) := by rw [← zpow_add₀ h2]; congr 1; omega
      _ ≤ a := ha1Q
  simp only [ratLog2]
  rw [← hc]
  split
  · rename_i hble
    exact ⟨(pow2LeRat_iff c a b hb).mp hble, hup⟩
  · rename_i hble
    have hlt : (a : ℚ) / b < 2 ^ c := by
      by_contra hcon
      push_neg at hcon
      exact hble ((pow2LeRat_iff c a b hb).mpr hcon)
    constructor
    · exact le_of_lt hlo
    · rw [show c - 1 + 1 = c by ring]
      exact hlt

/-- A nonnegative binary64 value, written `M · 2 ^ e` (mantissa and
exponent).  The finite exponent range of IEEE-754 binary64 is not
modelled; within the magnitude bounds used below no overflow, underflow
or subnormal values can occur, so the model coincides with binary64. -/
structure F64 where
  M : Nat
  e : Int

/-- The exact rational value of a float. -/
def F64.val (x : F64) : ℚ := (x.M : ℚ) * (2 : ℚ) ^ x.e

/-- Correctly rounded (nearest, ties to even) binary64 representation of
the rational `a / b`, for positive `a`, `b`: the exponent is chosen so
that the mantissa fraction lies in `[2 ^ 52, 2 ^ 53)`, then the mantissa
is rounded with `roundNE`. -/
def roundPos (a b : Nat) : F64 :=
  if 0 ≤ ratLog2 a b - 52 then
    { M := roundNE a (b * 2 ^ (ratLog2 a b - 52).toNat), e := ratLog2 a b - 52 }
  else
    { M := roundNE (a * 2 ^ (-(ratLog2 a b - 52)).toNat) b, e := ratLog2 a b - 52 }

theorem roundPos_err_aux (R : Nat) (e k : Int) (q : ℚ)
    (he : e = k - 52) (hk : (2 : ℚ) ^ k ≤ q)
    (herr : |(R : ℚ) - q * (2 : ℚ) ^ (-e)| ≤ 1 / 2) :
    |(R : ℚ) * (2 : ℚ) ^ e - q| ≤ q / 2 ^ 53 := by
  have h2 : (2 : ℚ) ≠ 0 := by norm_num
  have h2e : (0 : ℚ) < (2 : ℚ) ^ e := by positivity
  have key : (R : ℚ) * (2 : ℚ) ^ e - q
      = ((R : ℚ) - q * (2 : ℚ) ^ (-e)) * (2 : ℚ) ^ e := by
    rw [sub_mul, mul_assoc, ← zpow_add₀ h2]
    norm_num
  rw [key, abs_mul, abs_of_pos h2e]
  refine le_trans (mul_le_mul_of_nonneg_right herr h2e.le) ?_
  rw [one_div, inv_mul_eq_div]
  rw [div_le_div_iff₀ (by norm_num : (0 : ℚ) < 2) (by positivity : (0 : ℚ) < (2 : ℚ) ^ 53)]
  calc (2 : ℚ) ^ e * 2 ^ 53 = 2 ^ (k + 1) := by
        rw [show ((2 : ℚ) ^ 53) = (2 : ℚ) ^ ((53 : ℕ) : ℤ) from (zpow_natCast 2 53).symm,
          ← zpow_add₀ h2]
        congr 1
        omega
    _ = 2 * 2 ^ k := by rw [zpow_add₀ h2, zpow_one]; ring
    _ ≤ q * 2 := by linarith

theorem roundPos_err (a b : Nat) (ha : 0 < a) (hb : 0 < b) :
    |(roundPos a b).val - (a : ℚ) / b| ≤ ((a : ℚ) / b) / 2 ^ 53 := by
  have hbQ : (0 : ℚ) < b := by exact_mod_cast hb
  obtain ⟨hk1, hk2⟩ := ratLog2_spec a b ha hb
  set k : Int := ratLog2 a b with hkdef
  simp only [roundPos]
  rw [← hkdef]
  split
  · rename_i hge
    have hden : 0 < b * 2 ^ (k - 52).toNat := by positivity
    have herr0 := roundNE_err a _ hden
    have hcast : ((b * 2 ^ (k - 52).toNat : ℕ) : ℚ) = (b : ℚ) * (2 : ℚ) ^ (k - 52) := by
      push_cast
      rw [← zpow_natCast (2 : ℚ) (k - 52).toNat, Int.toNat_of_nonneg hge]
    have hfrac : (a : ℚ) / ((b * 2 ^ (k - 52).toNat : ℕ) : ℚ)
        = ((a : ℚ) / b) * (2 : ℚ) ^ (-(k - 52)) := by
      rw [hcast, zpow_neg]
      field_simp
    rw [hfrac] at herr0
    have haux := roundPos_err_aux (roundNE a (b * 2 ^ (k - 52).toNat)) (k - 52) k
      ((a : ℚ) / b) rfl hk1 herr0
    simpa [F64.val] using haux
  · rename_i hlt
    have hnn : 0 ≤ -(k - 52) := by omega
    have herr0 := roundNE_err (a * 2 ^ (-(k - 52)).toNat) b hb
    have hcast : ((a * 2 ^ (-(k - 52)).toNat : ℕ) : ℚ)
        = (a : ℚ) * (2 : ℚ) ^ (-(k - 52)) := by
      push_cast
      rw [← zpow_natCast (2 : ℚ) (-(k - 52)).toNat, Int.toNat_of_nonneg hnn]
    have hfrac : ((a * 2 ^ (-(k - 52)).toNat : ℕ) : ℚ) / b
        = ((a : ℚ) / b) * (2 : ℚ) ^ (-(k - 52)) := by
      rw [hcast]
      ring
    rw [hfrac] at herr0
    have haux := roundPos_err_aux (roundNE (a * 2 ^ (-(k - 52)).toNat) b) (k - 52) k
      ((a : ℚ) / b) rfl hk1 herr0
    simpa [F64.val] using haux

/-- CPython `h / w` on nonnegative machine integers: true division,
producing the correctly rounded binary64 quotient (`0.0` for `h = 0`). -/
def fl64Div (h w : Nat) : F64 :=
  if h = 0 then { M := 0, e := 0 } else roundPos h w

/-- CPython `200 * x` for a nonnegative float `x`: the correctly rounded
binary64 product (the factor 200 converts to binary64 exactly). -/
def fl64Mul200 (x : F64) : F64 :=
  if x.M = 0 then { M := 0, e := 0 }
  else
    { M := (roundPos (200 * x.M) 1).M, e := (roundPos (200 * x.M) 1).e + x.e }

/-- Python `int(x)` for a nonnegative float: truncation toward zero,
which is the floor. -/
def truncF (x : F64) : Nat :=
  match x.e with
  | Int.ofNat n => x.M * 2 ^ n
  | Int.negSucc n => x.M / 2 ^ (n + 1)

/-- The resized logo height exactly as the source computes it:
`int(logo_width * aspect_ratio)` with `aspect_ratio = logo.height /
logo.width`, both operations in binary64 floating point
(`src/badgecreator.py`, lines 92-94). -/
def pyLogoHeight (w h : Nat) : Nat := truncF (fl64Mul200 (fl64Div h w))

theorem fl64Div_err (h w : Nat) (hh : 0 < h) (hw : 0 < w) :
    |(fl64Div h w).val - (h : ℚ) / w| ≤ ((h : ℚ) / w) / 2 ^ 53 := by
  rw [fl64Div, if_neg (Nat.pos_iff_ne_zero.mp hh)]
  exact roundPos_err h w hh hw

theorem fl64Mul200_err (x : F64) :
    |(fl64Mul200 x).val - 200 * x.val| ≤ 200 * x.val / 2 ^ 53 := by
  by_cases hM : x.M = 0
  · simp [fl64Mul200, hM, F64.val]
  · rw [fl64Mul200, if_neg hM]
    have h200 : 0 < 200 * x.M := by omega
    have herr := roundPos_err (200 * x.M) 1 h200 one_pos
    push_cast at herr
    simp only [div_one] at herr
    have h2 : (2 : ℚ) ≠ 0 := by norm_num
    have h2e : (0 : ℚ) < (2 : ℚ) ^ x.e := by positivity
    have hval : (F64.mk (roundPos (200 * x.M) 1).M ((roundPos (200 * x.M) 1).e + x.e)).val
        = (roundPos (200 * x.M) 1).val * (2 : ℚ) ^ x.e := by
      simp only [F64.val, zpow_add₀ h2]
      ring
    rw [hval]
    have key : (roundPos (200 * x.M) 1).val * (2 : ℚ) ^ x.e - 200 * x.val
        = ((roundPos (200 * x.M) 1).val - 200 * (x.M : ℚ)) * (2 : ℚ) ^ x.e := by
      simp only [F64.val]
      ring
    rw [key, abs_mul, abs_of_pos h2e]
    refine le_trans (mul_le_mul_of_nonneg_right herr h2e.le) ?_
    refine le_of_eq ?_
    simp only [F64.val]
    ring

theorem truncF_bounds (x : F64) :
    (truncF x : ℚ) ≤ x.val ∧ x.val < truncF x + 1 := by
  obtain ⟨M, e⟩ := x
  cases e with
  | ofNat n =>
    simp only [truncF, F64.val, Int.ofNat_eq_natCast, zpow_natCast]
    push_cast
    constructor
    · exact le_refl _
    · linarith
  | negSucc n =>
    simp only [truncF, F64.val, zpow_negSucc]
    have hD : (0 : ℚ) < (2 : ℚ) ^ (n + 1) := by positivity
    have hDn : 0 < 2 ^ (n + 1) := by positivity
    have h1 := Nat.div_mul_le_self M (2 ^ (n + 1))
    have hdm := Nat.div_add_mod M (2 ^ (n + 1))
    have hmod := Nat.mod_lt M hDn
    have h2up : M < (M / 2 ^ (n + 1) + 1) * 2 ^ (n + 1) := by
      calc M = 2 ^ (n + 1) * (M / 2 ^ (n + 1)) + M % 2 ^ (n + 1) := hdm.symm
        _ < 2 ^ (n + 1) * (M / 2 ^ (n + 1)) + 2 ^ (n + 1) := by omega
        _ = (M / 2 ^ (n + 1) + 1) * 2 ^ (n + 1) := by ring
    constructor
    · rw [← div_eq_mul_inv, le_div_iff₀ hD]
      calc ((M / 2 ^ (n + 1) : ℕ) : ℚ) * (2 : ℚ) ^ (n + 1)
          = ((M / 2 ^ (n + 1) * 2 ^ (n + 1) : ℕ) : ℚ) := by push_cast; ring
        _ ≤ (M : ℚ) := by exact_mod_cast h1
    · rw [← div_eq_mul_inv, div_lt_iff₀ hD]
      calc (M : ℚ) < (((M / 2 ^ (n + 1) + 1) * 2 ^ (n + 1) : ℕ) : ℚ) := by
            exact_mod_cast h2up
        _ = (((M / 2 ^ (n + 1) : ℕ) : ℚ) + 1) * (2 : ℚ) ^ (n + 1) := by push_cast; ring

theorem pyLogoHeight_aspect (w h : Nat) (hw : 0 < w) (hh : 0 < h)
    (hhB : h ≤ 2 ^ 40) :
    pyLogoHeight w h * w ≤ 200 * h ∧ 200 * h ≤ (pyLogoHeight w h + 1) * w := by
  have hwQ : (0 : ℚ) < w := by exact_mod_cast hw
  have hhQ : (0 : ℚ) < h := by exact_mod_cast hh
  have hx := fl64Div_err h w hh hw
  set x := fl64Div h w with hxdef
  set q : ℚ := (h : ℚ) / w with hqdef
  have hq : (0 : ℚ) < q := div_pos hhQ hwQ
  obtain ⟨hx1, hx2⟩ := abs_le.mp hx
  have hy := fl64Mul200_err x
  set y := fl64Mul200 x with hydef
  obtain ⟨hy1, hy2⟩ := abs_le.mp hy
  obtain ⟨ht1, ht2⟩ := truncF_bounds y
  have hpy : pyLogoHeight w h = truncF y := by
    simp only [pyLogoHeight, ← hxdef, ← hydef]
  have hxu : x.val ≤ q * (1 + ((2 : ℚ) ^ 53)⁻¹) := by
    have hstep : x.val ≤ q + q / 2 ^ 53 := by linarith
    calc x.val ≤ q + q / 2 ^ 53 := hstep
      _ = q * (1 + ((2 : ℚ) ^ 53)⁻¹) := by rw [div_eq_mul_inv]; ring
  have hxl : q * (1 - ((2 : ℚ) ^ 53)⁻¹) ≤ x.val := by
    have hstep : q - q / 2 ^ 53 ≤ x.val := by linarith
    calc q * (1 - ((2 : ℚ) ^ 53)⁻¹) = q - q / 2 ^ 53 := by rw [div_eq_mul_inv]; ring
      _ ≤ x.val := hstep
  have hyu : y.val ≤ 200 * x.val * (1 + ((2 : ℚ) ^ 53)⁻¹) := by
    have hstep : y.val ≤ 200 * x.val + 200 * x.val / 2 ^ 53 := by linarith
    calc y.val ≤ 200 * x.val + 200 * x.val / 2 ^ 53 := hstep
      _ = 200 * x.val * (1 + ((2 : ℚ) ^ 53)⁻¹) := by rw [div_eq_mul_inv]; ring
  have hyl : 200 * x.val * (1 - ((2 : ℚ) ^ 53)⁻¹) ≤ y.val := by
    have hstep : 200 * x.val - 200 * x.val / 2 ^ 53 ≤ y.val := by linarith
    calc 200 * x.val * (1 - ((2 : ℚ) ^ 53)⁻¹)
        = 200 * x.val - 200 * x.val / 2 ^ 53 := by rw [div_eq_mul_inv]; ring
      _ ≤ y.val := hstep
  have hfac2 : ((1 : ℚ) + ((2 : ℚ) ^ 53)⁻¹) * (1 + ((2 : ℚ) ^ 53)⁻¹)
      ≤ 1 + ((2 : ℚ) ^ 51)⁻¹ := by norm_num
  have hfac3 : (1 : ℚ) - ((2 : ℚ) ^ 51)⁻¹
      ≤ (1 - ((2 : ℚ) ^ 53)⁻¹) * (1 - ((2 : ℚ) ^ 53)⁻¹) := by norm_num
  have h200q : (0 : ℚ) ≤ 200 * q := by positivity
  have hyu2 : y.val ≤ 200 * q * (1 + ((2 : ℚ) ^ 51)⁻¹) := by
    have s1 : 200 * x.val ≤ 200 * (q * (1 + ((2 : ℚ) ^ 53)⁻¹)) := by linarith
    have s2 := mul_le_mul_of_nonneg_right s1
      (show (0 : ℚ) ≤ 1 + ((2 : ℚ) ^ 53)⁻¹ by norm_num)
    calc y.val ≤ 200 * x.val * (1 + ((2 : ℚ) ^ 53)⁻¹) := hyu
      _ ≤ 200 * (q * (1 + ((2 : ℚ) ^ 53)⁻¹)) * (1 + ((2 : ℚ) ^ 53)⁻¹) := s2
      _ = 200 * q * (((1 : ℚ) + ((2 : ℚ) ^ 53)⁻¹) * (1 + ((2 : ℚ) ^ 53)⁻¹)) := by ring
      _ ≤ 200 * q * (1 + ((2 : ℚ) ^ 51)⁻¹) := mul_le_mul_of_nonneg_left hfac2 h200q
  have hyl2 : 200 * q * (1 - ((2 : ℚ) ^ 51)⁻¹) ≤ y.val := by
    have s1 : 200 * (q * (1 - ((2 : ℚ) ^ 53)⁻¹)) ≤ 200 * x.val := by linarith
    have s2 := mul_le_mul_of_nonneg_right s1
      (show (0 : ℚ) ≤ 1 - ((2 : ℚ) ^ 53)⁻¹ by norm_num)
    calc 200 * q * (1 - ((2 : ℚ) ^ 51)⁻¹)
        ≤ 200 * q * ((1 - ((2 : ℚ) ^ 53)⁻¹) * (1 - ((2 : ℚ) ^ 53)⁻¹)) :=
          mul_le_mul_of_nonneg_left hfac3 h200q
      _ = 200 * (q * (1 - ((2 : ℚ) ^ 53)⁻¹)) * (1 - ((2 : ℚ) ^ 53)⁻¹) := by ring
      _ ≤ 200 * x.val * (1 - ((2 : ℚ) ^ 53)⁻¹) := s2
      _ ≤ y.val := hyl
  have hqw : q * w = h := by rw [hqdef]; field_simp
  have hsize : 200 * (h : ℚ) * ((2 : ℚ) ^ 51)⁻¹ < 1 := by
    have hhQB : (h : ℚ) ≤ 2 ^ 40 := by exact_mod_cast hhB
    have hstep : 200 * (h : ℚ) * ((2 : ℚ) ^ 51)⁻¹
        ≤ 200 * ((2 : ℚ) ^ 40) * ((2 : ℚ) ^ 51)⁻¹ :=
      mul_le_mul_of_nonneg_right (by linarith) (by positivity)
    have hend : 200 * ((2 : ℚ) ^ 40) * ((2 : ℚ) ^ 51)⁻¹ < 1 := by norm_num
    linarith
  rw [hpy]
  constructor
  · have hQ : ((truncF y : ℕ) : ℚ) * w ≤ 200 * h + 200 * (h : ℚ) * ((2 : ℚ) ^ 51)⁻¹ := by
      calc ((truncF y : ℕ) : ℚ) * w ≤ y.val * w :=
            mul_le_mul_of_nonneg_right ht1 hwQ.le
        _ ≤ (200 * q * (1 + ((2 : ℚ) ^ 51)⁻¹)) * w :=
            mul_le_mul_of_nonneg_right hyu2 hwQ.le
        _ = 200 * (q * w) + 200 * (q * w) * ((2 : ℚ) ^ 51)⁻¹ := by ring
        _ = 200 * h + 200 * (h : ℚ) * ((2 : ℚ) ^ 51)⁻¹ := by rw [hqw]
    have hlt : ((truncF y * w : ℕ) : ℚ) < 200 * (h : ℚ) + 1 := by
      push_cast
      linarith
    have hltN : truncF y * w < 200 * h + 1 := by exact_mod_cast hlt
    omega
  · have hQ : (200 * (h : ℚ))
        ≤ ((truncF y : ℕ) : ℚ) * w + w + 200 * (h : ℚ) * ((2 : ℚ) ^ 51)⁻¹ := by
      calc (200 * (h : ℚ)) = 200 * (q * w) := by rw [hqw]
        _ = (200 * q * (1 - ((2 : ℚ) ^ 51)⁻¹)) * w + 200 * (q * w) * ((2 : ℚ) ^ 51)⁻¹ := by
            ring
        _ ≤ y.val * w + 200 * (q * w) * ((2 : ℚ) ^ 51)⁻¹ := by
            have := mul_le_mul_of_nonneg_right hyl2 hwQ.le
            linarith
        _ ≤ (((truncF y : ℕ) : ℚ) + 1) * w + 200 * (q * w) * ((2 : ℚ) ^ 51)⁻¹ := by
            have := mul_le_mul_of_nonneg_right (le_of_lt ht2) hwQ.le
            linarith
        _ = ((truncF y : ℕ) : ℚ) * w + w + 200 * (h : ℚ) * ((2 : ℚ) ^ 51)⁻¹ := by
            rw [hqw]; ring
    have hlt : ((200 * h : ℕ) : ℚ) < ((truncF y * w + w : ℕ) : ℚ) + 1 := by
      push_cast
      linarith
    have hltN : 200 * h < truncF y * w + w + 1 := by exact_mod_cast hlt
    have hle : 200 * h ≤ truncF y * w + w := by omega
    calc 200 * h ≤ truncF y * w + w := hle
      _ = (truncF y + 1) * w := by ring

/-- A text bounding box as returned by Pillow
`draw.textbbox((0, 0), text, font)`: the coordinates
`(left, top, right, bottom)` relative to the `(0, 0)` anchor. -/
structure BBox where
  left : Int
  top : Int
  right : Int
  bottom : Int
  deriving DecidableEq, Repr

/-- The font object actually used for measuring and drawing: either the
truetype font loaded from `arial.ttf`, or `ImageFont.load_default()`. -/
inductive FontChoice where
  | custom
  | defaultFont
  deriving DecidableEq, Repr

/-- The logo image as loaded from `resources/heroku_logo.png`, before
resizing: its original pixel dimensions. -/
structure OrigLogo where
  width : Nat
  height : Nat
  deriving DecidableEq, Repr

/-- The error surface of `create_badge`: the only exception the source
raises itself is `FileNotFoundError(f"Logo not found at {logo_path}")`
(lines 86-89), which models the `AssetNotFound` outcome of the spec. -/
inductive BadgeError where
  | assetNotFound (msg : String)
  deriving DecidableEq, Repr

/-- Every integer quantity `create_badge` computes, in source order.
Field names match the local variables of `create_badge`
(`src/badgecreator.py`, lines 91-185). -/
structure BadgeLayout where
  logo_width : Nat
  logo_height : Nat
  fontUsed : FontChoice
  line1_bbox : BBox
  line2_bbox : BBox
  text_width : Int
  text_height : Int
  box_width : Int
  box_height : Int
  badge_width : Int
  dynamic_badge_height : Int
  logo_x : Int
  logo_y : Int
  box_x : Int
  box_y : Int
  rotation_angle : Int
  diagonal : Int
  box_center_x : Int
  box_center_y : Int
  box_origin_x : Int
  box_origin_y : Int
  shadow_x0 : Int
  shadow_y0 : Int
  shadow_x1 : Int
  shadow_y1 : Int
  text_x1 : Int
  text_x2 : Int
  text_y_start : Int
  rotated_box_position_x : Int
  rotated_box_position_y : Int

/-- Which font `create_badge` ends up with: the truetype font when
`ImageFont.truetype` succeeds, `ImageFont.load_default()` on `IOError`
(`src/badgecreator.py`, lines 99-103). -/
def fontChoice (customFont : Option Unit) : FontChoice :=
  match customFont with
  | some _ => FontChoice.custom
  | none => FontChoice.defaultFont

/-- The layout arithmetic of `create_badge` (`src/badgecreator.py`,
lines 91-185), transcribed line by line, given the loaded logo with its
original dimensions, the outcome of the font load, and the font-metric
oracle. -/
def badgeLayout (logo : OrigLogo) (customFont : Option Unit)
    (measure : FontChoice → String → BBox) (line1 line2 : String) :
    BadgeLayout :=
  let logo_width : Nat := 200
  let logo_height : Nat := pyLogoHeight logo.width logo.height
  let font := fontChoice customFont
  let line1_bbox := measure font line1
  let line2_bbox := measure font line2
  let text_width : Int := max line1_bbox.right line2_bbox.right
  let text_height : Int :=
    (line1_bbox.bottom - line1_bbox.top) + (line2_bbox.bottom - line2_bbox.top)
  let padding : Int := 15
  let box_padding_top_bottom : Int := 5
  let box_padding_sides : Int := 10
  let box_width := text_width + 2 * box_padding_sides
  let box_height := text_height + 2 * box_padding_top_bottom
  let badge_width := max (box_width + 2 * padding) ((logo_width : Int) + 2 * padding)
  let dynamic_badge_height := (logo_height : Int) + box_height + 2 * padding
  let logo_x := Int.fdiv (badge_width - (logo_width : Int)) 2
  let logo_y := padding
  let box_x := Int.fdiv (badge_width - box_width) 2
  let box_y := logo_y + (logo_height : Int) - 10
  let rotation_angle : Int := -10
  let diagonal : Int := (isqrt (box_width ^ 2 + box_height ^ 2).toNat : Int)
  let box_center_x := Int.fdiv diagonal 2
  let box_center_y := Int.fdiv diagonal 2
  let box_origin_x := box_center_x - Int.fdiv box_width 2
  let box_origin_y := box_center_y - Int.fdiv box_height 2
  let shadow_offset : Int := 5
  { logo_width := logo_width
    logo_height := logo_height
    fontUsed := font
    line1_bbox := line1_bbox
    line2_bbox := line2_bbox
    text_width := text_width
    text_height := text_height
    box_width := box_width
    box_height := box_height
    badge_width := badge_width
    dynamic_badge_height := dynamic_badge_height
    logo_x := logo_x
    logo_y := logo_y
    box_x := box_x
    box_y := box_y
    rotation_angle := rotation_angle
    diagonal := diagonal
    box_center_x := box_center_x
    box_center_y := box_center_y
    box_origin_x := box_origin_x
    box_origin_y := box_origin_y
    shadow_x0 := box_origin_x + shadow_offset
    shadow_y0 := box_origin_y + shadow_offset
    shadow_x1 := box_origin_x + box_width + shadow_offset
    shadow_y1 := box_origin_y + box_height + shadow_offset
    text_x1 := box_origin_x + Int.fdiv (box_width - line1_bbox.right) 2
    text_x2 := box_origin_x + Int.fdiv (box_width - line2_bbox.right) 2
    text_y_start := box_origin_y + box_padding_top_bottom
    rotated_box_position_x := box_x - (box_center_x - Int.fdiv box_width 2)
    rotated_box_position_y := box_y - (box_center_y - Int.fdiv box_height 2) }

/-- `create_badge(line1, line2)` (`src/badgecreator.py`, lines 56-192):
if the logo cannot be opened it raises `FileNotFoundError` before any
other work and before producing any output; otherwise the font load
falls back on failure and the function runs to completion, producing the
layout that is rendered and PNG-encoded.  The successful result is
modelled by the computed layout (the PNG bytes are a deterministic
function of it, so `Except.ok` models the valid PNG outcome). -/
def create_badge (logoAsset : Option OrigLogo) (customFont : Option Unit)
    (measure : FontChoice → String → BBox) (line1 line2 : String) :
    Except BadgeError BadgeLayout :=
  match logoAsset with
  | none =>
      Except.error (BadgeError.assetNotFound "Logo not found at resources/heroku_logo.png")
  | some logo =>
      Except.ok (badgeLayout logo customFont measure line1 line2)

/-- The bbox Pillow returns for the empty string at anchor `(0, 0)`:
the degenerate box `(0, 0, 0, 0)`. -/
def emptyBBox : BBox := { left := 0, top := 0, right := 0, bottom := 0 }

/-- A concrete font-metric oracle used for witnesses and counterexamples:
every string measures to the empty bbox (as the empty string does under
any font). -/
def zeroMeasure : FontChoice → String → BBox := fun _ _ => emptyBBox

/-- A concrete nontrivial font-metric oracle for witnesses: a fixed-width
metric, 11 units per character, 22 units tall. -/
def sampleMeasure : FontChoice → String → BBox :=
  fun _ s => { left := 0, top := 0, right := 11 * (s.length : Int), bottom := 22 }

/-- Rounding to nearest, as in the `round(width * h / w)` of the claim
(half-up; at the counterexample used below the half-even convention of
Python agrees with half-up). -/
def specRound (num den : Nat) : Nat := (2 * num + den) / (2 * den)

theorem int_isqrt_bounds (m : Nat) :
    ((isqrt m : Int)) ^ 2 ≤ (m : Int) ∧ ((m : Int)) < ((isqrt m : Int) + 1) ^ 2 := by
  constructor
  · rw [pow_two]
    exact_mod_cast isqrt_sq_le m
  · rw [pow_two]
    exact_mod_cast lt_isqrt_succ_sq m

theorem int_sq_isqrt_bounds (w h : Int) :
    ((isqrt ((w ^ 2 + h ^ 2).toNat) : Int)) ^ 2 ≤ w ^ 2 + h ^ 2 ∧
      w ^ 2 + h ^ 2 < ((isqrt ((w ^ 2 + h ^ 2).toNat) : Int) + 1) ^ 2 := by
  have hnn : (0 : Int) ≤ w ^ 2 + h ^ 2 := by positivity
  have hb := int_isqrt_bounds (w ^ 2 + h ^ 2).toNat
  rwa [Int.toNat_of_nonneg hnn] at hb

/-- C1, counterexample: for the empty input pair the box is 20 × 10 and
the source allocates a buffer of side `int(math.sqrt(500)) = 22`, the
floor of the square root, while the ceiling is 23 (`22² < 500 ≤ 23²`):
the side does not equal the ceiling and is strictly below the exact
diagonal, so the buffer side is not ≥ the diagonal of the unrotated
box. -/
theorem C1_counterexample :
    (badgeLayout ⟨400, 82⟩ (some ()) zeroMeasure "" "").box_width = 20 ∧
    (badgeLayout ⟨400, 82⟩ (some ()) zeroMeasure "" "").box_height = 10 ∧
    (badgeLayout ⟨400, 82⟩ (some ()) zeroMeasure "" "").diagonal = 22 ∧
    (22 : Int) ^ 2 < 20 ^ 2 + 10 ^ 2 ∧ 20 ^ 2 + 10 ^ 2 ≤ (23 : Int) ^ 2 := by
  exact ⟨by decide, by decide, by decide, by decide, by decide⟩

/-- C1, amended: for every logo, font outcome, font metric and pair of
input strings, the square expansion buffer side equals the floor (not
the ceiling) of `sqrt(box_width² + box_height²)`:
`side² ≤ box_width² + box_height² < (side + 1)²`, so the side is within
one unit below the exact diagonal of the unrotated label box (sub-unit
corner clipping is possible at extreme rotation angles). -/
theorem C1_buffer_side_floor_of_diagonal (logo : OrigLogo) (cf : Option Unit)
    (m : FontChoice → String → BBox) (l1 l2 : String) :
    (badgeLayout logo cf m l1 l2).diagonal ^ 2
        ≤ (badgeLayout logo cf m l1 l2).box_width ^ 2
            + (badgeLayout logo cf m l1 l2).box_height ^ 2
      ∧ (badgeLayout logo cf m l1 l2).box_width ^ 2
            + (badgeLayout logo cf m l1 l2).box_height ^ 2
          < ((badgeLayout logo cf m l1 l2).diagonal + 1) ^ 2 :=
  int_sq_isqrt_bounds _ _

/-- C2, confirmed: the combined text block width equals the maximum of
the two individually measured line bounding-box widths (the bbox `right`
coordinate measured from the `(0, 0)` anchor, as the source uses), and
the combined text block height equals the sum of the two lines own
bounding-box heights `bottom - top`, stacked with no extra inter-line
gap (`src/badgecreator.py`, lines 105-111). -/
theorem C2_text_block_dimensions (logo : OrigLogo) (cf : Option Unit)
    (m : FontChoice → String → BBox) (l1 l2 : String) :
    (badgeLayout logo cf m l1 l2).text_width
        = max (m (fontChoice cf) l1).right (m (fontChoice cf) l2).right
      ∧ (badgeLayout logo cf m l1 l2).text_height
        = ((m (fontChoice cf) l1).bottom - (m (fontChoice cf) l1).top)
            + ((m (fontChoice cf) l2).bottom - (m (fontChoice cf) l2).top) :=
  ⟨rfl, rfl⟩

/-- C3, confirmed: the badge canvas width equals
`max(box_width + 2·15, logo_width + 2·15)` and the canvas height equals
`logo_height + box_height + 2·15`, with `box_width = text_width + 2·10`
and `box_height = text_height + 2·5`
(`src/badgecreator.py`, lines 113-123). -/
theorem C3_canvas_dimensions (logo : OrigLogo) (cf : Option Unit)
    (m : FontChoice → String → BBox) (l1 l2 : String) :
    (badgeLayout logo cf m l1 l2).box_width
        = (badgeLayout logo cf m l1 l2).text_width + 2 * 10
      ∧ (badgeLayout logo cf m l1 l2).box_height
        = (badgeLayout logo cf m l1 l2).text_height + 2 * 5
      ∧ (badgeLayout logo cf m l1 l2).badge_width
        = max ((badgeLayout logo cf m l1 l2).box_width + 2 * 15)
            (((badgeLayout logo cf m l1 l2).logo_width : Int) + 2 * 15)
      ∧ (badgeLayout logo cf m l1 l2).dynamic_badge_height
        = ((badgeLayout logo cf m l1 l2).logo_height : Int)
            + (badgeLayout logo cf m l1 l2).box_height + 2 * 15 :=
  ⟨rfl, rfl, rfl, rfl⟩

/-- C4, counterexample: for an original logo of width 16 and height 15
the source computes `int(200 * (15 / 16)) = int(187.5) = 187` in
binary64 (truncation toward zero; the intermediate values are exact
dyadics here), while rounding to nearest as the claim states gives 188.
Moreover the computation is a float truncation and not even an exact
floor: for a logo of width 5 and height 23 the binary64 product
`200 * (23 / 5)` is slightly below 920, so the source obtains 919 while
the exact floor of `200 · 23 / 5` is 920. -/
theorem C4_counterexample :
    (badgeLayout ⟨16, 15⟩ (some ()) zeroMeasure "" "").logo_height = 187
      ∧ specRound (200 * 15) 16 = 188
      ∧ (187 : Nat) ≠ 188
      ∧ (badgeLayout ⟨5, 23⟩ (some ()) zeroMeasure "" "").logo_height = 919
      ∧ 200 * 23 / 5 = 920 :=
  ⟨by decide, by decide, by decide, by decide, by decide⟩

/-- C4, amended: when the logo asset loads with original width `w` and
height `h` (both positive; bounded by `2 ^ 40` so that the binary64
rounding error of the two float operations stays below one pixel and the
model provably coincides with IEEE-754), `create_badge` resizes it to
target width 200 and height `int(200 * (h / w))` evaluated in binary64
floating point — which equals neither `round(200 · h / w)` nor always
`floor(200 · h / w)` — and the resized aspect ratio still equals the
original within an integer tolerance of at most one pixel:
`logo_height · w ≤ 200 · h ≤ (logo_height + 1) · w`. -/
theorem C4_resize_float_aspect (logo : OrigLogo) (cf : Option Unit)
    (m : FontChoice → String → BBox) (l1 l2 : String)
    (hw : 0 < logo.width) (hh : 0 < logo.height)
    (_hwB : logo.width ≤ 2 ^ 40) (hhB : logo.height ≤ 2 ^ 40) :
    (badgeLayout logo cf m l1 l2).logo_width = 200
      ∧ (badgeLayout logo cf m l1 l2).logo_height
        = pyLogoHeight logo.width logo.height
      ∧ (badgeLayout logo cf m l1 l2).logo_height * logo.width ≤ 200 * logo.height
      ∧ 200 * logo.height
        ≤ ((badgeLayout logo cf m l1 l2).logo_height + 1) * logo.width := by
  refine ⟨rfl, rfl, ?_, ?_⟩
  · show pyLogoHeight logo.width logo.height * logo.width ≤ 200 * logo.height
    exact (pyLogoHeight_aspect logo.width logo.height hw hh hhB).1
  · show 200 * logo.height ≤ (pyLogoHeight logo.width logo.height + 1) * logo.width
    exact (pyLogoHeight_aspect logo.width logo.height hw hh hhB).2

theorem C4_resize_float_aspect_witness :
    0 < (16 : Nat) ∧ 0 < (15 : Nat) ∧ (16 : Nat) ≤ 2 ^ 40 ∧ (15 : Nat) ≤ 2 ^ 40
      ∧ ((badgeLayout ⟨16, 15⟩ (some ()) zeroMeasure "" "").logo_width = 200
        ∧ (badgeLayout ⟨16, 15⟩ (some ()) zeroMeasure "" "").logo_height
          = pyLogoHeight 16 15
        ∧ (badgeLayout ⟨16, 15⟩ (some ()) zeroMeasure "" "").logo_height * 16
          ≤ 200 * 15
        ∧ 200 * 15
          ≤ ((badgeLayout ⟨16, 15⟩ (some ()) zeroMeasure "" "").logo_height + 1) * 16) :=
  ⟨by decide, by decide, by decide, by decide,
    C4_resize_float_aspect ⟨16, 15⟩ (some ()) zeroMeasure "" "" (by decide) (by decide)
      (by decide) (by decide)⟩

/-- C5, counterexample: with a 400 × 82 logo (resized height 41) and
empty inputs, the intended top-left y of the box is
46 = logo bottom edge − 10, while the box center y is
46 + 10 // 2 = 51 ≠ 46: the point `(canvas_center_x,
logo_bottom_edge − 10)` is where the TOP edge of the box sits, not its
center, so the center does not align with that point. -/
theorem C5_counterexample :
    (badgeLayout ⟨400, 82⟩ (some ()) zeroMeasure "" "").box_y = 46
      ∧ (badgeLayout ⟨400, 82⟩ (some ()) zeroMeasure "" "").logo_y
          + ((badgeLayout ⟨400, 82⟩ (some ()) zeroMeasure "" "").logo_height : Int)
          - 10 = 46
      ∧ (badgeLayout ⟨400, 82⟩ (some ()) zeroMeasure "" "").box_y
          + Int.fdiv (badgeLayout ⟨400, 82⟩ (some ()) zeroMeasure "" "").box_height 2 = 51
      ∧ (51 : Int) ≠ 46 :=
  ⟨by decide, by decide, by decide, by decide⟩

/-- C5, amended: the intended TOP-LEFT of the unrotated box (not its
center) is placed at `((badge_width − box_width) // 2,
logo_bottom_edge − 10)` — horizontally centered by floor division, top
edge overlapping the logo bottom edge by 10 units — and the paste offset
equals the intended box top-left minus the offset of the box top-left
within the expansion buffer, in both axes
(`src/badgecreator.py`, lines 130-133 and 180-185). -/
theorem C5_paste_position (logo : OrigLogo) (cf : Option Unit)
    (m : FontChoice → String → BBox) (l1 l2 : String) :
    (badgeLayout logo cf m l1 l2).box_x
        = Int.fdiv ((badgeLayout logo cf m l1 l2).badge_width
            - (badgeLayout logo cf m l1 l2).box_width) 2
      ∧ (badgeLayout logo cf m l1 l2).box_y
        = (badgeLayout logo cf m l1 l2).logo_y
            + ((badgeLayout logo cf m l1 l2).logo_height : Int) - 10
      ∧ (badgeLayout logo cf m l1 l2).rotated_box_position_x
        = (badgeLayout logo cf m l1 l2).box_x
            - (badgeLayout logo cf m l1 l2).box_origin_x
      ∧ (badgeLayout logo cf m l1 l2).rotated_box_position_y
        = (badgeLayout logo cf m l1 l2).box_y
            - (badgeLayout logo cf m l1 l2).box_origin_y :=
  ⟨rfl, rfl, rfl, rfl⟩

/-- C6, confirmed: replacing the title or the subtitle by a string with
a larger measured width never decreases the computed canvas width, and
the canvas width is always ≥ resized logo width + 30 and ≥ label box
width + 30 (`src/badgecreator.py`, lines 110-119). -/
theorem C6_canvas_width_monotone (logo : OrigLogo) (cf : Option Unit)
    (m m' : FontChoice → String → BBox) (l1 l2 : String)
    (h1 : (m (fontChoice cf) l1).right ≤ (m' (fontChoice cf) l1).right)
    (h2 : (m (fontChoice cf) l2).right ≤ (m' (fontChoice cf) l2).right) :
    (badgeLayout logo cf m l1 l2).badge_width
        ≤ (badgeLayout logo cf m' l1 l2).badge_width
      ∧ ((badgeLayout logo cf m l1 l2).logo_width : Int) + 30
        ≤ (badgeLayout logo cf m l1 l2).badge_width
      ∧ (badgeLayout logo cf m l1 l2).box_width + 30
        ≤ (badgeLayout logo cf m l1 l2).badge_width := by
  simp only [badgeLayout, Nat.cast_ofNat]
  refine ⟨max_le_max (add_le_add_right (add_le_add_right (max_le_max h1 h2) _) _) le_rfl,
    ?_, ?_⟩
  · exact le_trans (by norm_num) (le_max_right _ _)
  · exact le_trans (le_of_eq (by ring)) (le_max_left _ _)

theorem C6_canvas_width_monotone_witness :
    (zeroMeasure (fontChoice (some ())) "a").right
        ≤ (sampleMeasure (fontChoice (some ())) "a").right
      ∧ (zeroMeasure (fontChoice (some ())) "b").right
        ≤ (sampleMeasure (fontChoice (some ())) "b").right
      ∧ ((badgeLayout ⟨400, 82⟩ (some ()) zeroMeasure "a" "b").badge_width
          ≤ (badgeLayout ⟨400, 82⟩ (some ()) sampleMeasure "a" "b").badge_width
        ∧ ((badgeLayout ⟨400, 82⟩ (some ()) zeroMeasure "a" "b").logo_width : Int) + 30
          ≤ (badgeLayout ⟨400, 82⟩ (some ()) zeroMeasure "a" "b").badge_width
        ∧ (badgeLayout ⟨400, 82⟩ (some ()) zeroMeasure "a" "b").box_width + 30
          ≤ (badgeLayout ⟨400, 82⟩ (some ()) zeroMeasure "a" "b").badge_width) :=
  ⟨by decide, by decide,
    C6_canvas_width_monotone ⟨400, 82⟩ (some ()) zeroMeasure sampleMeasure "a" "b"
      (by decide) (by decide)⟩

/-- C7, confirmed: `create_badge` fails with the `AssetNotFound` error
(the re-raised `FileNotFoundError`) exactly when the logo asset cannot
be opened; the failure carries no partial result (an `Except.error`
holds no layout, so nothing is written and no blank image is
substituted), and whenever the logo loads the call instead succeeds with
the full layout (`src/badgecreator.py`, lines 85-89). -/
theorem C7_asset_not_found (logoAsset : Option OrigLogo) (cf : Option Unit)
    (m : FontChoice → String → BBox) (l1 l2 : String) :
    (create_badge logoAsset cf m l1 l2
        = Except.error
            (BadgeError.assetNotFound "Logo not found at resources/heroku_logo.png")
      ↔ logoAsset = none)
      ∧ ∀ logo, logoAsset = some logo →
          create_badge logoAsset cf m l1 l2
            = Except.ok (badgeLayout logo cf m l1 l2) := by
  constructor
  · constructor
    · intro herr
      cases logoAsset with
      | none => rfl
      | some logo => simp [create_badge] at herr
    · rintro rfl
      rfl
  · rintro logo rfl
    rfl

theorem C7_asset_not_found_witness :
    (create_badge none (some ()) zeroMeasure "Heroku Agent Action" "Deployed by Neo"
        = Except.error
            (BadgeError.assetNotFound "Logo not found at resources/heroku_logo.png"))
      ∧ create_badge (some ⟨400, 82⟩) (some ()) zeroMeasure
            "Heroku Agent Action" "Deployed by Neo"
          = Except.ok
              (badgeLayout ⟨400, 82⟩ (some ()) zeroMeasure
                "Heroku Agent Action" "Deployed by Neo") :=
  ⟨(C7_asset_not_found none (some ()) zeroMeasure
      "Heroku Agent Action" "Deployed by Neo").1.mpr rfl,
    (C7_asset_not_found (some ⟨400, 82⟩) (some ()) zeroMeasure
      "Heroku Agent Action" "Deployed by Neo").2 ⟨400, 82⟩ rfl⟩

/-- C8, confirmed: when the custom font cannot be loaded (the
`IOError` branch, modelled by the custom-font argument `none`),
`create_badge` falls back to the library default font and still succeeds
with the full layout that is PNG-encoded; the font failure is recovered
internally and never surfaces as an error
(`src/badgecreator.py`, lines 97-103). -/
theorem C8_font_fallback (logo : OrigLogo) (m : FontChoice → String → BBox)
    (l1 l2 : String) :
    create_badge (some logo) none m l1 l2
        = Except.ok (badgeLayout logo none m l1 l2)
      ∧ (badgeLayout logo none m l1 l2).fontUsed = FontChoice.defaultFont :=
  ⟨rfl, rfl⟩

/-- C9, confirmed: with both inputs empty (the empty string measures to
the degenerate bbox `(0, 0, 0, 0)`), `create_badge` does not fail — it
succeeds with the layout that is rendered and PNG-encoded — and the
canvas height is ≥ logo height + 2·15 + 2·5 (indeed equal to it). -/
theorem C9_empty_inputs (logo : OrigLogo) (cf : Option Unit)
    (m : FontChoice → String → BBox)
    (hm : m (fontChoice cf) "" = emptyBBox) :
    create_badge (some logo) cf m "" ""
        = Except.ok (badgeLayout logo cf m "" "")
      ∧ ((badgeLayout logo cf m "" "").logo_height : Int) + 2 * 15 + 2 * 5
        ≤ (badgeLayout logo cf m "" "").dynamic_badge_height := by
  refine ⟨rfl, ?_⟩
  simp only [badgeLayout, hm, emptyBBox]
  omega

theorem C9_empty_inputs_witness :
    zeroMeasure (fontChoice (some ())) "" = emptyBBox
      ∧ (create_badge (some ⟨400, 82⟩) (some ()) zeroMeasure "" ""
          = Except.ok (badgeLayout ⟨400, 82⟩ (some ()) zeroMeasure "" "")
        ∧ ((badgeLayout ⟨400, 82⟩ (some ()) zeroMeasure "" "").logo_height : Int)
            + 2 * 15 + 2 * 5
          ≤ (badgeLayout ⟨400, 82⟩ (some ()) zeroMeasure "" "").dynamic_badge_height) :=
  ⟨rfl, C9_empty_inputs ⟨400, 82⟩ (some ()) zeroMeasure rfl⟩

/-- C10, counterexample: for the empty input pair (box 20 × 10 centered
in a 22 × 22 buffer at origin (1, 6)), the drop shadow spans columns
6..26 and rows 11..21: its right edge, column 26, exceeds the last
buffer column 21, but its bottom edge, row 21, is exactly the last
buffer row and NOT past the bottom edge — refuting that the shadow
extends past the right AND bottom edges. -/
theorem C10_counterexample :
    (badgeLayout ⟨400, 82⟩ (some ()) zeroMeasure "" "").diagonal = 22
      ∧ (badgeLayout ⟨400, 82⟩ (some ()) zeroMeasure "" "").shadow_x1 = 26
      ∧ (badgeLayout ⟨400, 82⟩ (some ()) zeroMeasure "" "").shadow_y1 = 21
      ∧ ¬ ((badgeLayout ⟨400, 82⟩ (some ()) zeroMeasure "" "").diagonal - 1
          < (badgeLayout ⟨400, 82⟩ (some ()) zeroMeasure "" "").shadow_y1) :=
  ⟨by decide, by decide, by decide, by decide⟩

/-- C10, amended: for the empty input pair (20 × 10 box in a buffer of
side `int(sqrt(500)) = 22`), the drop-shadow rectangle — drawn at the
box position offset 5 units down-and-right, with the same dimensions as
the box — extends past the RIGHT edge of the expansion buffer (its right
column 26 exceeds the last column 21) while its bottom edge lies exactly
on the last row (row 21); the right-hand part of the shadow lies outside
the buffer and is clipped before rotation. -/
theorem C10_shadow_clipped_right :
    (badgeLayout ⟨400, 82⟩ (some ()) zeroMeasure "" "").box_width = 20
      ∧ (badgeLayout ⟨400, 82⟩ (some ()) zeroMeasure "" "").box_height = 10
      ∧ (badgeLayout ⟨400, 82⟩ (some ()) zeroMeasure "" "").diagonal = 22
      ∧ (badgeLayout ⟨400, 82⟩ (some ()) zeroMeasure "" "").diagonal - 1
          < (badgeLayout ⟨400, 82⟩ (some ()) zeroMeasure "" "").shadow_x1
      ∧ (badgeLayout ⟨400, 82⟩ (some ()) zeroMeasure "" "").shadow_y1
          = (badgeLayout ⟨400, 82⟩ (some ()) zeroMeasure "" "").diagonal - 1 :=
  ⟨by decide, by decide, by decide, by decide, by decide⟩
